import Mathlib

/-!
Verification of the core coordination logic of a blockchain worker stack:
the contract cache-quota allocator (crates/phactory/src/contracts/support/keeper.rs),
the per-sender message sequencer (standalone/prb/src/messages.rs), and the
deterministic block replay engine (standalone/replay/src/replay_gk.rs).
Machine integers are modelled as Nat; external collaborators (chain storage,
RPC, transaction manager) appear as opaque parameters.
-/

/-! ### Quota allocator (keeper.rs) -/

/-- Constant TOTAL_MEMORY from keeper.rs: `1024 * 1024 * 20` bytes. -/
def TOTAL_MEMORY : Nat := 1024 * 1024 * 20

/-- Divisor used by calc_cache_quotas: the sum of all contract weights,
clamped below by 1 (source: `.sum::<u64>().max(1)`). -/
def total_weight {K : Type} (contracts : List (K × Nat)) : Nat :=
  ((contracts.map Prod.snd).sum).max 1

/-- Embedding of keeper.rs calc_cache_quotas: each contract receives
`TOTAL_MEMORY * weight / total_weight` in integer division. The contract map
is modelled as an ordered association list of (key, weight). -/
def calc_cache_quotas {K : Type} (contracts : List (K × Nat)) : List (K × Nat) :=
  contracts.map (fun p => (p.1, TOTAL_MEMORY * p.2 / total_weight contracts))

/-! ### Message sequencer data model (messages.rs) -/

/-- Constant TX_TIMEOUT_IN_BLOCKS from messages.rs. -/
def TX_TIMEOUT_IN_BLOCKS : Nat := 6

/-- The four states of an in-flight message (messages.rs MessageState). -/
inductive MessageState where
  | Pending
  | Successful
  | Failure
  | Timeout
deriving DecidableEq, Repr

/-- Embedding of messages.rs MessageContext. Heights and sequences are Nat;
the sender origin is modelled as an opaque Nat key. -/
structure MessageContext where
  sender : Nat
  sequence : Nat
  state : MessageState
  submitted_at : Nat
  prev_try_count : Nat
deriving DecidableEq, Repr

/-- Embedding of MessageContext::is_pending. Timeout messages get a grace
window of TX_TIMEOUT_IN_BLOCKS blocks past submitted_at; Pending messages
stop being pending after the same window; Successful and Failure are never
pending. Subtraction is saturating, as in the source. -/
def MessageContext.is_pending (mc : MessageContext) (current_height : Nat) : Bool :=
  match mc.state with
  | MessageState.Timeout =>
    if current_height ≤ mc.submitted_at then
      true
    else if current_height - mc.submitted_at ≤ TX_TIMEOUT_IN_BLOCKS then
      true
    else
      false
  | MessageState.Pending =>
    if current_height > mc.submitted_at
        ∧ current_height - mc.submitted_at > TX_TIMEOUT_IN_BLOCKS then
      false
    else
      true
  | MessageState.Successful => false
  | MessageState.Failure => false

/-- Embedding of MessageContext::is_pending_or_success. -/
def MessageContext.is_pending_or_success (mc : MessageContext) (current_height : Nat) : Bool :=
  mc.is_pending current_height
    || (match mc.state with
        | MessageState.Successful => true
        | _ => false)

/-- Embedding of MessageContext::is_timeout_or_failure. -/
def MessageContext.is_timeout_or_failure (mc : MessageContext) (current_height : Nat) : Bool :=
  !(mc.is_pending_or_success current_height)

/-- Embedding of messages.rs SenderContext: the per-sender next-sequence
belief and the map sequence to MessageContext, modelled as an association
list with HashMap insert-or-overwrite semantics. -/
structure SenderContext where
  sender : Nat
  node_next_sequence : Nat
  pending_messages : List (Nat × MessageContext)
deriving DecidableEq, Repr

/-- Loop condition of SenderContext::calculate_next_sequence, from the source
expression `pending_messages.get(seq).map(is_pending_or_success).unwrap_or(false)`. -/
def pendingOrSuccessAt (pm : List (Nat × MessageContext)) (ch seq : Nat) : Bool :=
  match List.lookup seq pm with
  | some mc => mc.is_pending_or_success ch
  | none => false

/-- Largest key of an association list, used as the termination measure for
the calculate_next_sequence loop. -/
def maxKey (l : List (Nat × MessageContext)) : Nat :=
  l.foldr (fun p m => Nat.max p.1 m) 0

/-- While loop of SenderContext::calculate_next_sequence: starting at seq,
advance by one while the message context at the current sequence exists and
is pending-or-success. Terminates because pending_messages is finite: every
sequence passing the check is a key of the map. -/
def nextSeqFrom (pm : List (Nat × MessageContext)) (ch : Nat) (seq : Nat) : Nat :=
  if hp : pendingOrSuccessAt pm ch seq = true then
    nextSeqFrom pm ch (seq + 1)
  else
    seq
termination_by maxKey pm + 1 - seq
decreasing_by
  have hkey : ∀ (l : List (Nat × MessageContext)) (s : Nat),
      (List.lookup s l).isSome = true → s ≤ maxKey l := by
    intro l
    induction l with
    | nil => intro s hs; simp [List.lookup] at hs
    | cons p t ih =>
      intro s hs
      simp only [List.lookup] at hs
      cases hb : (s == p.1) with
      | true =>
        have : s = p.1 := by exact_mod_cast eq_of_beq hb
        subst this
        exact le_max_left _ _
      | false =>
        rw [hb] at hs
        exact le_trans (ih s hs) (le_max_right _ _)
  have hsome : (List.lookup seq pm).isSome = true := by
    unfold pendingOrSuccessAt at hp
    cases hl : List.lookup seq pm with
    | none => rw [hl] at hp; simp at hp
    | some mc => simp
  have := hkey pm seq hsome
  omega

/-- Embedding of SenderContext::calculate_next_sequence. -/
def SenderContext.calculate_next_sequence (ctx : SenderContext) (ch : Nat) : Nat :=
  nextSeqFrom ctx.pending_messages ch ctx.node_next_sequence

/-- HashMap insert-or-overwrite on an association list: replaces the binding
of the key when present, appends it otherwise. -/
def alistInsert {α : Type} (k : Nat) (v : α) : List (Nat × α) → List (Nat × α)
  | [] => [(k, v)]
  | p :: rest =>
    if k = p.1 then (k, v) :: rest else p :: alistInsert k v rest

/-- HashMap remove on an association list: drops every binding of the key. -/
def alistRemove {α : Type} (k : Nat) (l : List (Nat × α)) : List (Nat × α) :=
  l.filter (fun p => p.1 ≠ k)

/-- Character-level prefix test used to embed substring search on the
rendered error message. -/
def startsWith : List Char → List Char → Bool
  | _, [] => true
  | [], _ :: _ => false
  | c :: cs, p :: ps => c = p && startsWith cs ps

/-- Substring containment on character lists, embedding the Rust
`str::contains` call in the Completed arm of the master loop. -/
def containsStr (pat : List Char) : List Char → Bool
  | [] => startsWith [] pat
  | c :: t => startsWith (c :: t) pat || containsStr pat t

/-- Literal "Tx timed out!" matched against rendered submission errors. -/
def TX_TIMED_OUT : List Char := "Tx timed out!".toList

/-- State transition applied to a completed submission result in the
Completed arm: Ok maps to Successful, an error whose rendered message
contains "Tx timed out!" maps to Timeout, any other error to Failure. -/
def completedState (result : Except (List Char) Unit) : MessageState :=
  match result with
  | Except.ok _ => MessageState.Successful
  | Except.error err =>
    if containsStr TX_TIMED_OUT err = true then MessageState.Timeout
    else MessageState.Failure

/-- Events consumed by the master loop of messages.rs that mutate sequencer
state. Messages are represented by their sequence numbers; worker id and
pool id only feed logging and are omitted. -/
inductive MessagesEvent where
  | doSyncMessages : Nat → List Nat → Option Nat → MessagesEvent
  | completed : Nat → Nat → Except (List Char) Unit → MessagesEvent
  | removeSender : Nat → MessagesEvent
  | currentHeight : Nat → MessagesEvent

/-- State owned by the master loop: the sender map and the current height. -/
structure SeqState where
  senders : List (Nat × SenderContext)
  current_height : Nat
deriving DecidableEq, Repr

/-- Initial master-loop state: no senders, height 0. -/
def initialSeqState : SeqState := ⟨[], 0⟩

/-- Per-message body of the DoSyncMessages loop: recompute the expected next
sequence, skip the message when it does not match, otherwise resubmit the
existing context (marking it Pending at the current height and bumping
prev_try_count) or insert a fresh Pending context. -/
def doSyncOne (ch : Nat) (sctx : SenderContext) (mseq : Nat) : SenderContext :=
  let next_sequence := sctx.calculate_next_sequence ch
  if mseq ≠ next_sequence then
    sctx
  else
    match List.lookup mseq sctx.pending_messages with
    | some mc =>
      if mc.is_pending_or_success ch then
        sctx
      else
        { sctx with
          pending_messages :=
            alistInsert mseq
              { mc with
                state := MessageState.Pending
                submitted_at := ch
                prev_try_count := mc.prev_try_count + 1 }
              sctx.pending_messages }
    | none =>
      { sctx with
        pending_messages :=
          alistInsert mseq ⟨sctx.sender, mseq, MessageState.Pending, ch, 0⟩
            sctx.pending_messages }

/-- One iteration of the master loop of messages.rs on a state-mutating
event. DoSyncMessages creates the sender (when a fresh node sequence is
available), overwrites node_next_sequence with a fresh value, and folds the
submission body over the batch; Completed rewrites one message state;
RemoveSender drops the whole sender; CurrentHeight updates the height. -/
def processEvent (st : SeqState) (e : MessagesEvent) : SeqState :=
  match e with
  | MessagesEvent.doSyncMessages sender msgs next_sequence =>
    match List.lookup sender st.senders with
    | some sctx =>
      let sctx1 :=
        match next_sequence with
        | some v => { sctx with node_next_sequence := v }
        | none => sctx
      let sctx2 := msgs.foldl (doSyncOne st.current_height) sctx1
      { st with senders := alistInsert sender sctx2 st.senders }
    | none =>
      match next_sequence with
      | some v =>
        let sctx1 : SenderContext := ⟨sender, v, []⟩
        let sctx2 := msgs.foldl (doSyncOne st.current_height) sctx1
        { st with senders := alistInsert sender sctx2 st.senders }
      | none => st
  | MessagesEvent.completed sender sequence result =>
    match List.lookup sender st.senders with
    | none => st
    | some sctx =>
      match List.lookup sequence sctx.pending_messages with
      | none => st
      | some mc =>
        { st with
          senders :=
            alistInsert sender
              { sctx with
                pending_messages :=
                  alistInsert sequence { mc with state := completedState result }
                    sctx.pending_messages }
              st.senders }
  | MessagesEvent.removeSender sender =>
    { st with senders := alistRemove sender st.senders }
  | MessagesEvent.currentHeight h =>
    { st with current_height := h }

/-- Per-sender interval property claimed by the spec: the keys of
pending_messages at or above node_next_sequence form exactly the contiguous
interval from node_next_sequence of some length k. -/
def SeqInvariant (ctx : SenderContext) : Prop :=
  ∃ k, ∀ s, ctx.node_next_sequence ≤ s →
    ((List.lookup s ctx.pending_messages).isSome = true
      ↔ s < ctx.node_next_sequence + k)

/-- The interval property for every sender of a master-loop state. -/
def SequencerInvariant (st : SeqState) : Prop :=
  ∀ o ctx, List.lookup o st.senders = some ctx → SeqInvariant ctx

/-- States reachable from the initial state by arbitrary events. -/
inductive Reachable : SeqState → Prop where
  | init : Reachable initialSeqState
  | step (st : SeqState) (e : MessagesEvent) :
      Reachable st → Reachable (processEvent st e)

/-- Side condition under which the interval invariant is preserved: a
DoSyncMessages event carrying a fresh node sequence for an already known
sender never moves node_next_sequence backwards. -/
def goodEvent (st : SeqState) (e : MessagesEvent) : Prop :=
  match e with
  | MessagesEvent.doSyncMessages sender _ (some v) =>
      ∀ sctx, List.lookup sender st.senders = some sctx →
        sctx.node_next_sequence ≤ v
  | _ => True

/-- States reachable from the initial state by events satisfying goodEvent. -/
inductive ReachableM : SeqState → Prop where
  | init : ReachableM initialSeqState
  | step (st : SeqState) (e : MessagesEvent) :
      ReachableM st → goodEvent st e → ReachableM (processEvent st e)

/-! ### Replay engine (replay_gk.rs) -/

/-- Storage-change payload of a block (main and child tries), opaque. -/
structure StorageChanges (Changes : Type) where
  main_storage_changes : Changes
  child_storage_changes : Changes

/-- Block header: number and the claimed post-state root. -/
structure BlockHeader (Root : Type) where
  number : Nat
  state_root : Root

/-- Block header together with its storage changes. -/
structure BlockHeaderWithChanges (Root Changes : Type) where
  block_header : BlockHeader Root
  storage_changes : StorageChanges Changes

/-- Embedding of replay_gk.rs ReplayFactory. The chain storage and the
computing-economics state machine are opaque type parameters; the receive
queue lives inside the opaque handle_inbound_messages collaborator. -/
structure ReplayFactory (Storage GK : Type) where
  next_event_seq : Int
  current_block : Nat
  storage : Storage
  gk : GK
  gk_launched : Bool

/-- External collaborators of dispatch_block: root computation and change
application on ChainStorage, and the inbound-message handler (which may fail
and mutates the factory). -/
structure ReplayOps (Storage Root Txn Changes GK : Type) where
  calc_root_if_changes : Storage → Changes → Changes → Root × Txn
  apply_changes : Storage → Root → Txn → Storage
  handle_inbound_messages :
    ReplayFactory Storage GK → Nat → ReplayFactory Storage GK × Option (List Char)

/-- Error literal returned by dispatch_block on a state-root mismatch. -/
def STATE_ROOT_MISMATCH : List Char := "State root mismatch".toList

/-- Embedding of ReplayFactory::dispatch_block: compute the would-be state
root, fail before touching anything when it disagrees with the header,
otherwise apply the changes, handle inbound messages, and advance
current_block. Rust mutation of self is modelled by returning the new
factory together with an optional error. -/
def dispatch_block {Storage Root Txn Changes GK : Type} [DecidableEq Root]
    (ops : ReplayOps Storage Root Txn Changes GK)
    (f : ReplayFactory Storage GK)
    (block : BlockHeaderWithChanges Root Changes) :
    ReplayFactory Storage GK × Option (List Char) :=
  let rt := ops.calc_root_if_changes f.storage
    block.storage_changes.main_storage_changes
    block.storage_changes.child_storage_changes
  if block.block_header.state_root ≠ rt.1 then
    (f, some STATE_ROOT_MISMATCH)
  else
    let f1 := { f with storage := ops.apply_changes f.storage rt.1 rt.2 }
    match ops.handle_inbound_messages f1 block.block_header.number with
    | (f2, some e) => (f2, some e)
    | (f2, none) => ({ f2 with current_block := block.block_header.number }, none)

/-- Initial block number of the replay driver loop, from replay_gk.rs: the
checkpoint block plus one when a checkpoint was restored (nonzero), the
start_at argument plus one otherwise. -/
def initial_block_number (start_at last_checkpoint_block : Nat) : Nat :=
  if last_checkpoint_block = 0 then start_at + 1 else last_checkpoint_block + 1

/-- Value substituted for a missing stop_at argument (u32::MAX). -/
def U32_MAX : Nat := 2 ^ 32 - 1

/-- Stop check of the replay driver loop: once the next block number reaches
stop_at (defaulting to u32::MAX), the driver waits forever. -/
def replay_should_stop (block_number : Nat) (stop_at : Option Nat) : Bool :=
  decide (stop_at.getD U32_MAX ≤ block_number)

/-! ### Concrete instances used by witnesses and counterexamples -/

/-- Concrete sender context: pending message at 2, successful at 3,
node_next_sequence 2. -/
def ctxC5 : SenderContext :=
  ⟨0, 2, [(2, ⟨0, 2, MessageState.Pending, 0, 0⟩), (3, ⟨0, 3, MessageState.Successful, 0, 0⟩)]⟩

/-- Concrete message context sitting at sequence 5 of sender 0. -/
def mcFive : MessageContext := ⟨0, 5, MessageState.Pending, 0, 0⟩

/-- Concrete sequencer state with one sender holding one pending message. -/
def stOne : SeqState := ⟨[(0, ⟨0, 5, [(5, mcFive)]⟩)], 0⟩

/-- First counterexample event for the interval invariant: sender 0 appears
with node sequence 5 and submits message 5. -/
def cexEventA : MessagesEvent := MessagesEvent.doSyncMessages 0 [5] (some 5)

/-- Second counterexample event: a later refresh reports node sequence 3,
moving node_next_sequence backwards below the existing key 5. -/
def cexEventB : MessagesEvent := MessagesEvent.doSyncMessages 0 [] (some 3)

/-- State reached from the initial state by the two counterexample events. -/
def cexSeqState : SeqState := processEvent (processEvent initialSeqState cexEventA) cexEventB

/-- Concrete timed-out completion result. -/
def resTimedOut : Except (List Char) Unit := Except.error TX_TIMED_OUT

/-- Concrete replay collaborators over trivial storage: the computed root is
always 0. -/
def opsW : ReplayOps Unit Nat Unit Unit Unit :=
  ⟨fun _ _ _ => (0, ()), fun s _ _ => s, fun f _ => (f, none)⟩

/-- Concrete replay factory at block 7. -/
def factoryW : ReplayFactory Unit Unit := ⟨1, 7, (), (), false⟩

/-- Concrete block whose header claims state root 1 while the computed root
is 0. -/
def blockW : BlockHeaderWithChanges Nat Unit := ⟨⟨8, 1⟩, ⟨(), ()⟩⟩

/-! ### Helper lemmas: quota allocator -/

theorem nat_div_add_div_le (a b W : Nat) : a / W + b / W ≤ (a + b) / W := by
  cases Nat.eq_zero_or_pos W with
  | inl h => subst h; simp
  | inr h =>
    rw [Nat.le_div_iff_mul_le h]
    have ha := Nat.div_mul_le_self a W
    have hb := Nat.div_mul_le_self b W
    have : (a / W + b / W) * W = a / W * W + b / W * W := by ring
    omega

theorem list_sum_div_le (l : List Nat) (W : Nat) :
    (l.map (fun a => a / W)).sum ≤ l.sum / W := by
  induction l with
  | nil => simp
  | cons a t ih =>
    simp only [List.map_cons, List.sum_cons]
    calc a / W + (t.map (fun a => a / W)).sum
        ≤ a / W + t.sum / W := Nat.add_le_add_left ih _
      _ ≤ (a + t.sum) / W := nat_div_add_div_le a t.sum W

theorem list_sum_map_mul {K : Type} (T : Nat) (l : List (K × Nat)) :
    (l.map (fun p => T * p.2)).sum = T * (l.map Prod.snd).sum := by
  induction l with
  | nil => simp
  | cons a t ih => simp [ih, Nat.mul_add]

theorem quotas_sum_le {K : Type} (contracts : List (K × Nat)) :
    ((calc_cache_quotas contracts).map Prod.snd).sum ≤ TOTAL_MEMORY := by
  have hW : 0 < total_weight contracts :=
    lt_of_lt_of_le Nat.zero_lt_one (le_max_right _ _)
  have hSW : (contracts.map Prod.snd).sum ≤ total_weight contracts :=
    le_max_left _ _
  have e1 : (calc_cache_quotas contracts).map Prod.snd
      = (contracts.map (fun p => TOTAL_MEMORY * p.2)).map
          (fun a => a / total_weight contracts) := by
    unfold calc_cache_quotas
    rw [List.map_map, List.map_map]
    rfl
  rw [e1]
  calc ((contracts.map (fun p => TOTAL_MEMORY * p.2)).map
          (fun a => a / total_weight contracts)).sum
      ≤ (contracts.map (fun p => TOTAL_MEMORY * p.2)).sum / total_weight contracts :=
        list_sum_div_le _ _
    _ = TOTAL_MEMORY * (contracts.map Prod.snd).sum / total_weight contracts := by
        rw [list_sum_map_mul]
    _ ≤ TOTAL_MEMORY * total_weight contracts / total_weight contracts :=
        Nat.div_le_div_right (Nat.mul_le_mul (le_refl _) hSW)
    _ = TOTAL_MEMORY := Nat.mul_div_cancel _ hW

/-! ### Claims C3, C8, C9: quota allocator -/

/-- Claim C3: for every contract map with u32 weights, the quotas produced by
calc_cache_quotas sum to at most TOTAL_MEMORY = 20 * 2 ^ 20 bytes, each quota
is the integer-division value TOTAL_MEMORY * weight / max 1 (sum of weights),
and every product TOTAL_MEMORY * weight fits in 64-bit unsigned arithmetic;
the division residue is never handed to any contract. -/
theorem calc_cache_quotas_sum_le_total {K : Type} (contracts : List (K × Nat))
    (hw : ∀ p ∈ contracts, p.2 < 2 ^ 32) :
    ((calc_cache_quotas contracts).map Prod.snd).sum ≤ TOTAL_MEMORY
    ∧ (∀ p ∈ contracts, TOTAL_MEMORY * p.2 < 2 ^ 64)
    ∧ calc_cache_quotas contracts
        = contracts.map (fun p => (p.1, TOTAL_MEMORY * p.2 / total_weight contracts)) := by
  refine ⟨quotas_sum_le contracts, ?_, rfl⟩
  intro p hp
  have h1 := hw p hp
  have h4 : TOTAL_MEMORY = 20971520 := by norm_num [TOTAL_MEMORY]
  have h2 : (2 : Nat) ^ 32 = 4294967296 := by norm_num
  have h3 : (2 : Nat) ^ 64 = 18446744073709551616 := by norm_num
  rw [h4, h3]
  rw [h2] at h1
  omega

/-- Witness for claim C3 at a concrete two-contract map. -/
theorem calc_cache_quotas_sum_le_total_witness :
    ((calc_cache_quotas [((1 : Nat), (3 : Nat)), (2, 5)]).map Prod.snd).sum ≤ TOTAL_MEMORY :=
  (calc_cache_quotas_sum_le_total [((1 : Nat), (3 : Nat)), (2, 5)] (by decide)).1

/-- Claim C8: on the empty contract map and on any map whose weights are all
zero, calc_cache_quotas yields quota 0 for every contract, and the divisor is
clamped to at least 1, so no division by zero occurs. -/
theorem calc_cache_quotas_zero_weights {K : Type} (contracts : List (K × Nat))
    (hz : ∀ p ∈ contracts, p.2 = 0) :
    0 < total_weight contracts ∧ ∀ q ∈ calc_cache_quotas contracts, q.2 = 0 := by
  constructor
  · exact lt_of_lt_of_le Nat.zero_lt_one (le_max_right _ _)
  · intro q hq
    unfold calc_cache_quotas at hq
    obtain ⟨p, hp, rfl⟩ := List.mem_map.mp hq
    simp [hz p hp]

/-- Witness for claim C8 at the all-zero two-contract map; the empty map case
is the vacuous instance of the same hypothesis. -/
theorem calc_cache_quotas_zero_weights_witness :
    0 < total_weight [((1 : Nat), (0 : Nat)), (2, 0)]
    ∧ ∀ q ∈ calc_cache_quotas [((1 : Nat), (0 : Nat)), (2, 0)], q.2 = 0 :=
  calc_cache_quotas_zero_weights [((1 : Nat), (0 : Nat)), (2, 0)] (by decide)

/-- Claim C9: scaling every weight by one positive constant k (with every
scaled weight still a u32) leaves every quota unchanged. -/
theorem calc_cache_quotas_scale_invariant {K : Type} (contracts : List (K × Nat))
    (k : Nat) (hk : 0 < k) (hfit : ∀ p ∈ contracts, k * p.2 < 2 ^ 32) :
    calc_cache_quotas (contracts.map (fun p => (p.1, k * p.2)))
      = calc_cache_quotas contracts := by
  have hW' : total_weight (contracts.map (fun p => (p.1, k * p.2)))
      = Nat.max (k * (contracts.map Prod.snd).sum) 1 := by
    unfold total_weight
    rw [List.map_map]
    have : (Prod.snd ∘ fun p : K × Nat => (p.1, k * p.2)) = fun p : K × Nat => k * p.2 := rfl
    rw [this, list_sum_map_mul]
  unfold calc_cache_quotas
  rw [List.map_map, hW']
  apply List.map_congr_left
  intro p hp
  simp only [Function.comp]
  cases Nat.eq_zero_or_pos (contracts.map Prod.snd).sum with
  | inl hS =>
    have hp2 : p.2 = 0 := by
      have hmem : p.2 ∈ contracts.map Prod.snd := List.mem_map_of_mem Prod.snd hp
      have := List.le_sum_of_mem hmem
      omega
    rw [hp2]
    simp [total_weight, hS]
  | inr hS =>
    have h1 : Nat.max (k * (contracts.map Prod.snd).sum) 1 = k * (contracts.map Prod.snd).sum :=
      Nat.max_eq_left (Nat.mul_pos hk hS)
    have h2 : total_weight contracts = (contracts.map Prod.snd).sum := by
      unfold total_weight
      exact Nat.max_eq_left hS
    rw [h1, h2]
    have h3 : TOTAL_MEMORY * (k * p.2) = k * (TOTAL_MEMORY * p.2) := by ring
    rw [h3, Nat.mul_div_mul_left _ _ hk]

/-- Witness for claim C9: scaling the weights of a concrete map by 3. -/
theorem calc_cache_quotas_scale_invariant_witness :
    calc_cache_quotas ([((1 : Nat), (2 : Nat)), (2, 5)].map (fun p => (p.1, 3 * p.2)))
      = calc_cache_quotas [((1 : Nat), (2 : Nat)), (2, 5)] :=
  calc_cache_quotas_scale_invariant [((1 : Nat), (2 : Nat)), (2, 5)] 3 (by decide) (by decide)

/-! ### Claim C4: pending predicate -/

/-- Claim C4: is_pending is true exactly on states Pending and Timeout within
the height window (at or before submitted_at, or within the saturating
difference bound TX_TIMEOUT_IN_BLOCKS = 6); Successful and Failure are never
pending, and a Timeout context inside the window is still pending. -/
theorem is_pending_characterization (mc : MessageContext) (ch : Nat) :
    mc.is_pending ch = true
      ↔ ((mc.state = MessageState.Pending ∨ mc.state = MessageState.Timeout)
          ∧ (ch ≤ mc.submitted_at ∨ ch - mc.submitted_at ≤ TX_TIMEOUT_IN_BLOCKS)) := by
  cases hst : mc.state <;>
    simp [MessageContext.is_pending, hst, TX_TIMEOUT_IN_BLOCKS]

/-! ### Helper lemmas: calculate_next_sequence -/

theorem pendingOrSuccessAt_isSome {pm : List (Nat × MessageContext)} {ch seq : Nat}
    (hp : pendingOrSuccessAt pm ch seq = true) :
    (List.lookup seq pm).isSome = true := by
  unfold pendingOrSuccessAt at hp
  cases hl : List.lookup seq pm with
  | none => rw [hl] at hp; simp at hp
  | some mc => simp

theorem lookup_le_maxKey {l : List (Nat × MessageContext)} {s : Nat}
    (hs : (List.lookup s l).isSome = true) : s ≤ maxKey l := by
  induction l with
  | nil => simp [List.lookup] at hs
  | cons p t ih =>
    simp only [List.lookup] at hs
    cases hb : (s == p.1) with
    | true =>
      have : s = p.1 := by exact_mod_cast eq_of_beq hb
      subst this
      exact le_max_left _ _
    | false =>
      rw [hb] at hs
      exact le_trans (ih hs) (le_max_right _ _)

theorem nextSeqFrom_eq (pm : List (Nat × MessageContext)) (ch seq : Nat) :
    nextSeqFrom pm ch seq
      = if pendingOrSuccessAt pm ch seq = true then nextSeqFrom pm ch (seq + 1) else seq := by
  rw [nextSeqFrom]
  split <;> simp_all

theorem nextSeqFrom_spec (pm : List (Nat × MessageContext)) (ch : Nat) :
    ∀ n seq, maxKey pm + 1 - seq ≤ n →
      seq ≤ nextSeqFrom pm ch seq
      ∧ pendingOrSuccessAt pm ch (nextSeqFrom pm ch seq) = false
      ∧ ∀ s, seq ≤ s → s < nextSeqFrom pm ch seq → pendingOrSuccessAt pm ch s = true := by
  intro n
  induction n with
  | zero =>
    intro seq hle
    have hfalse : pendingOrSuccessAt pm ch seq = false := by
      cases hp : pendingOrSuccessAt pm ch seq with
      | false => rfl
      | true =>
        have := lookup_le_maxKey (pendingOrSuccessAt_isSome hp)
        omega
    rw [nextSeqFrom_eq, hfalse]
    simp only [Bool.false_eq_true, if_false]
    exact ⟨le_refl _, hfalse, fun s h1 h2 => absurd h2 (by omega)⟩
  | succ n ih =>
    intro seq hle
    cases hp : pendingOrSuccessAt pm ch seq with
    | false =>
      rw [nextSeqFrom_eq, hp]
      simp only [Bool.false_eq_true, if_false]
      exact ⟨le_refl _, hp, fun s h1 h2 => absurd h2 (by omega)⟩
    | true =>
      have hk : seq ≤ maxKey pm := lookup_le_maxKey (pendingOrSuccessAt_isSome hp)
      have hle2 : maxKey pm + 1 - (seq + 1) ≤ n := by omega
      obtain ⟨ih1, ih2, ih3⟩ := ih (seq + 1) hle2
      have heq : nextSeqFrom pm ch seq = nextSeqFrom pm ch (seq + 1) := by
        rw [nextSeqFrom_eq, hp]
        simp
      rw [heq]
      refine ⟨by omega, ih2, ?_⟩
      intro s h1 h2
      cases Nat.eq_or_lt_of_le h1 with
      | inl h => rw [← h]; exact hp
      | inr h => exact ih3 s (by omega) h2

theorem calculate_next_sequence_props (ctx : SenderContext) (ch : Nat) :
    ctx.node_next_sequence ≤ ctx.calculate_next_sequence ch
    ∧ pendingOrSuccessAt ctx.pending_messages ch (ctx.calculate_next_sequence ch) = false
    ∧ ∀ s, ctx.node_next_sequence ≤ s → s < ctx.calculate_next_sequence ch →
        pendingOrSuccessAt ctx.pending_messages ch s = true :=
  nextSeqFrom_spec ctx.pending_messages ch
    (maxKey ctx.pending_messages + 1 - ctx.node_next_sequence)
    ctx.node_next_sequence (le_refl _)

/-! ### Claim C5: calculate_next_sequence -/

/-- Claim C5: calculate_next_sequence returns the least sequence at or above
node_next_sequence whose message context is absent or not pending-or-success
(pendingOrSuccessAt is exactly that lookup); every sequence between
node_next_sequence and the result carries a pending-or-success context, and
the function is total because pending_messages is finite. -/
theorem calculate_next_sequence_least (ctx : SenderContext) (ch : Nat) :
    ctx.node_next_sequence ≤ ctx.calculate_next_sequence ch
    ∧ pendingOrSuccessAt ctx.pending_messages ch (ctx.calculate_next_sequence ch) = false
    ∧ (∀ s, ctx.node_next_sequence ≤ s → s < ctx.calculate_next_sequence ch →
        pendingOrSuccessAt ctx.pending_messages ch s = true)
    ∧ ∀ m, ctx.node_next_sequence ≤ m → pendingOrSuccessAt ctx.pending_messages ch m = false →
        ctx.calculate_next_sequence ch ≤ m := by
  obtain ⟨h1, h2, h3⟩ := calculate_next_sequence_props ctx ch
  refine ⟨h1, h2, h3, ?_⟩
  intro m hm hfalse
  by_contra hlt
  have := h3 m hm (by omega)
  rw [hfalse] at this
  exact Bool.false_ne_true this

/-- Witness for claim C5 at a concrete sender context. -/
theorem calculate_next_sequence_least_witness :
    pendingOrSuccessAt ctxC5.pending_messages 0 (ctxC5.calculate_next_sequence 0) = false :=
  (calculate_next_sequence_least ctxC5 0).2.1

/-! ### Helper lemmas: association-list operations -/

theorem lookup_alistInsert {α : Type} (k : Nat) (v : α) (l : List (Nat × α)) (q : Nat) :
    List.lookup q (alistInsert k v l) = if q = k then some v else List.lookup q l := by
  induction l with
  | nil =>
    by_cases hqk : q = k
    · subst hqk; simp [alistInsert, List.lookup_cons]
    · simp [alistInsert, List.lookup_cons, hqk, beq_false_of_ne hqk]
  | cons p t ih =>
    obtain ⟨a, b⟩ := p
    by_cases hka : k = a
    · subst hka
      by_cases hqk : q = k
      · subst hqk; simp [alistInsert, List.lookup_cons]
      · simp [alistInsert, List.lookup_cons, hqk, beq_false_of_ne hqk]
    · rw [show alistInsert k v ((a, b) :: t) = (a, b) :: alistInsert k v t from by
        simp [alistInsert, hka]]
      by_cases hqa : q = a
      · subst hqa
        have hqk : q ≠ k := fun h => hka h.symm
        simp [List.lookup_cons, hqk]
      · simp [List.lookup_cons, beq_false_of_ne hqa, ih]

theorem lookup_alistRemove {α : Type} (k : Nat) (l : List (Nat × α)) (q : Nat) :
    List.lookup q (alistRemove k l) = if q = k then none else List.lookup q l := by
  induction l with
  | nil => simp [alistRemove]
  | cons p t ih =>
    obtain ⟨a, b⟩ := p
    by_cases hak : a = k
    · subst hak
      rw [show alistRemove a ((a, b) :: t) = alistRemove a t from by
        simp [alistRemove, List.filter_cons]]
      rw [ih]
      by_cases hqa : q = a
      · simp [hqa]
      · simp [hqa, List.lookup_cons, beq_false_of_ne hqa]
    · rw [show alistRemove k ((a, b) :: t) = (a, b) :: alistRemove k t from by
        simp [alistRemove, List.filter_cons, hak]]
      by_cases hqa : q = a
      · subst hqa
        simp [List.lookup_cons, hak]
      · simp [List.lookup_cons, beq_false_of_ne hqa, ih]

/-! ### Claim C6: completion handling -/

/-- Claim C6: a Completed event for an unknown sender or unknown sequence
leaves the whole sequencer state unchanged; otherwise exactly the addressed
message context has its state rewritten (Ok to Successful, an error whose
message contains the timeout literal to Timeout, any other error to Failure)
while its other fields, all other contexts, the node_next_sequence and every
other sender stay untouched. -/
theorem completed_event_spec (st : SeqState) (sender sequence : Nat)
    (result : Except (List Char) Unit) :
    (List.lookup sender st.senders = none →
      processEvent st (MessagesEvent.completed sender sequence result) = st)
    ∧ ∀ sctx, List.lookup sender st.senders = some sctx →
        (List.lookup sequence sctx.pending_messages = none →
          processEvent st (MessagesEvent.completed sender sequence result) = st)
        ∧ ∀ mc, List.lookup sequence sctx.pending_messages = some mc →
            (processEvent st (MessagesEvent.completed sender sequence result)).current_height
              = st.current_height
            ∧ (∀ o, o ≠ sender →
                List.lookup o
                    (processEvent st (MessagesEvent.completed sender sequence result)).senders
                  = List.lookup o st.senders)
            ∧ ∃ sctx2,
                List.lookup sender
                    (processEvent st (MessagesEvent.completed sender sequence result)).senders
                  = some sctx2
                ∧ sctx2.sender = sctx.sender
                ∧ sctx2.node_next_sequence = sctx.node_next_sequence
                ∧ (∀ q, q ≠ sequence →
                    List.lookup q sctx2.pending_messages = List.lookup q sctx.pending_messages)
                ∧ ∃ mc2,
                    List.lookup sequence sctx2.pending_messages = some mc2
                    ∧ mc2.sender = mc.sender
                    ∧ mc2.sequence = mc.sequence
                    ∧ mc2.submitted_at = mc.submitted_at
                    ∧ mc2.prev_try_count = mc.prev_try_count
                    ∧ mc2.state
                      = (match result with
                         | Except.ok _ => MessageState.Successful
                         | Except.error err =>
                           if containsStr TX_TIMED_OUT err = true then MessageState.Timeout
                           else MessageState.Failure) := by
  refine ⟨?_, ?_⟩
  · intro hnone
    simp [processEvent, hnone]
  · intro sctx hs
    refine ⟨?_, ?_⟩
    · intro hnone
      simp [processEvent, hs, hnone]
    · intro mc hm
      have hpe : processEvent st (MessagesEvent.completed sender sequence result)
          = SeqState.mk
              (alistInsert sender
                (SenderContext.mk sctx.sender sctx.node_next_sequence
                  (alistInsert sequence
                    (MessageContext.mk mc.sender mc.sequence (completedState result)
                      mc.submitted_at mc.prev_try_count)
                    sctx.pending_messages))
                st.senders)
              st.current_height := by
        simp [processEvent, hs, hm]
      rw [hpe]
      refine ⟨rfl, ?_, ?_⟩
      · intro o ho
        simp [lookup_alistInsert, ho]
      · refine ⟨SenderContext.mk sctx.sender sctx.node_next_sequence
            (alistInsert sequence
              (MessageContext.mk mc.sender mc.sequence (completedState result)
                mc.submitted_at mc.prev_try_count)
              sctx.pending_messages),
          by simp [lookup_alistInsert], rfl, rfl, ?_, ?_⟩
        · intro q hq
          simp [lookup_alistInsert, hq]
        · refine ⟨MessageContext.mk mc.sender mc.sequence (completedState result)
              mc.submitted_at mc.prev_try_count,
            by simp [lookup_alistInsert], rfl, rfl, rfl, rfl, ?_⟩
          show completedState result = _
          cases result with
          | ok _ => rfl
          | error err => rfl

/-- Witness for claim C6: a timed-out completion on a concrete state. -/
theorem completed_event_spec_witness :
    (processEvent stOne (MessagesEvent.completed 0 5 resTimedOut)).current_height
      = stOne.current_height :=
  (((completed_event_spec stOne 0 5 resTimedOut).2 ⟨0, 5, [(5, mcFive)]⟩ (by rfl)).2
    mcFive (by rfl)).1

/-! ### Helper lemmas: persistence of message contexts -/

theorem doSyncOne_lookup_isSome (ch : Nat) (c : SenderContext) (m s : Nat)
    (hm : (List.lookup s c.pending_messages).isSome = true) :
    (List.lookup s (doSyncOne ch c m).pending_messages).isSome = true := by
  unfold doSyncOne
  split
  · dsimp only
    split
    · exact hm
    · split
      · exact hm
      · rw [lookup_alistInsert]
        by_cases hsm : s = m
        · simp [hsm]
        · rw [if_neg hsm]
          exact hm
  · dsimp only
    split
    · exact hm
    · rw [lookup_alistInsert]
      by_cases hsm : s = m
      · simp [hsm]
      · rw [if_neg hsm]
        exact hm

theorem foldl_doSyncOne_lookup_isSome (ch : Nat) (msgs : List Nat) :
    ∀ (c : SenderContext) (s : Nat), (List.lookup s c.pending_messages).isSome = true →
      (List.lookup s (msgs.foldl (doSyncOne ch) c).pending_messages).isSome = true := by
  induction msgs with
  | nil => intro c s h; exact h
  | cons m t ih =>
    intro c s h
    exact ih (doSyncOne ch c m) s (doSyncOne_lookup_isSome ch c m s h)

theorem doSync_senders_other (st : SeqState) (sender : Nat) (msgs : List Nat)
    (nseq : Option Nat) (o : Nat) (ho : o ≠ sender) :
    List.lookup o (processEvent st (MessagesEvent.doSyncMessages sender msgs nseq)).senders
      = List.lookup o st.senders := by
  cases hl : List.lookup sender st.senders with
  | some sc =>
    cases nseq with
    | some v => simp [processEvent, hl, lookup_alistInsert, ho]
    | none => simp [processEvent, hl, lookup_alistInsert, ho]
  | none =>
    cases nseq with
    | some v => simp [processEvent, hl, lookup_alistInsert, ho]
    | none => simp [processEvent, hl]

theorem completed_senders_other (st : SeqState) (sender seq : Nat)
    (res : Except (List Char) Unit) (o : Nat) (ho : o ≠ sender) :
    List.lookup o (processEvent st (MessagesEvent.completed sender seq res)).senders
      = List.lookup o st.senders := by
  cases hl : List.lookup sender st.senders with
  | none => simp [processEvent, hl]
  | some sc =>
    cases hm : List.lookup seq sc.pending_messages with
    | none => simp [processEvent, hl, hm]
    | some m0 => simp [processEvent, hl, hm, lookup_alistInsert, ho]

theorem doSync_occupied_eq (st : SeqState) (sender : Nat) (msgs : List Nat)
    (nseq : Option Nat) (sctx : SenderContext)
    (h1 : List.lookup sender st.senders = some sctx) :
    processEvent st (MessagesEvent.doSyncMessages sender msgs nseq)
      = SeqState.mk
          (alistInsert sender
            (msgs.foldl (doSyncOne st.current_height)
              (match nseq with
               | some v => SenderContext.mk sctx.sender v sctx.pending_messages
               | none => sctx))
            st.senders)
          st.current_height := by
  cases nseq with
  | some v => simp [processEvent, h1]
  | none => simp [processEvent, h1]

theorem doSyncOne_node_next_sequence (ch : Nat) (c : SenderContext) (m : Nat) :
    (doSyncOne ch c m).node_next_sequence = c.node_next_sequence := by
  unfold doSyncOne
  split
  · dsimp only
    split
    · rfl
    · split
      · rfl
      · rfl
  · dsimp only
    split
    · rfl
    · rfl

/-! ### Claim C10: only RemoveSender removes contexts -/

/-- Claim C10: the only sequencer event that removes a message context is
RemoveSender, which discards the entire sender context; DoSyncMessages,
Completed and CurrentHeight keep every existing sender present and every
existing message context present (contexts below node_next_sequence
included), so contexts persist until their sender is removed. -/
theorem remove_sender_only_removal (st : SeqState) (o s : Nat)
    (sctx : SenderContext) (mc : MessageContext)
    (h1 : List.lookup o st.senders = some sctx)
    (h2 : List.lookup s sctx.pending_messages = some mc) :
    (∀ e : MessagesEvent, (∀ o2, e = MessagesEvent.removeSender o2 → o2 ≠ o) →
      ∃ sctx2 mc2,
        List.lookup o (processEvent st e).senders = some sctx2
        ∧ List.lookup s sctx2.pending_messages = some mc2)
    ∧ List.lookup o (processEvent st (MessagesEvent.removeSender o)).senders = none := by
  have hSome : (List.lookup s sctx.pending_messages).isSome = true := by rw [h2]; rfl
  constructor
  · intro e he
    cases e with
    | doSyncMessages sender msgs nseq =>
      by_cases hso : sender = o
      · subst hso
        cases nseq with
        | some v =>
          rw [doSync_occupied_eq st sender msgs (some v) sctx h1]
          have hIs := foldl_doSyncOne_lookup_isSome st.current_height msgs
            (SenderContext.mk sctx.sender v sctx.pending_messages) s hSome
          obtain ⟨mc2, hmc2⟩ := Option.isSome_iff_exists.mp hIs
          refine ⟨_, mc2, ?_, hmc2⟩
          show List.lookup sender (alistInsert sender _ st.senders) = _
          rw [lookup_alistInsert, if_pos rfl]
        | none =>
          rw [doSync_occupied_eq st sender msgs none sctx h1]
          have hIs := foldl_doSyncOne_lookup_isSome st.current_height msgs sctx s hSome
          obtain ⟨mc2, hmc2⟩ := Option.isSome_iff_exists.mp hIs
          refine ⟨_, mc2, ?_, hmc2⟩
          show List.lookup sender (alistInsert sender _ st.senders) = _
          rw [lookup_alistInsert, if_pos rfl]
      · refine ⟨sctx, mc, ?_, h2⟩
        rw [doSync_senders_other st sender msgs nseq o (fun h => hso h.symm)]
        exact h1
    | completed sender seq res =>
      by_cases hso : sender = o
      · subst hso
        cases hm : List.lookup seq sctx.pending_messages with
        | none =>
          refine ⟨sctx, mc, ?_, h2⟩
          have : processEvent st (MessagesEvent.completed sender seq res) = st := by
            simp [processEvent, h1, hm]
          rw [this]
          exact h1
        | some m0 =>
          have hpe : processEvent st (MessagesEvent.completed sender seq res)
              = SeqState.mk
                  (alistInsert sender
                    (SenderContext.mk sctx.sender sctx.node_next_sequence
                      (alistInsert seq
                        (MessageContext.mk m0.sender m0.sequence (completedState res)
                          m0.submitted_at m0.prev_try_count)
                        sctx.pending_messages))
                    st.senders)
                  st.current_height := by
            simp [processEvent, h1, hm]
          rw [hpe]
          by_cases hsq : s = seq
          · refine ⟨SenderContext.mk sctx.sender sctx.node_next_sequence
                (alistInsert seq
                  (MessageContext.mk m0.sender m0.sequence (completedState res)
                    m0.submitted_at m0.prev_try_count)
                  sctx.pending_messages),
              MessageContext.mk m0.sender m0.sequence (completedState res)
                m0.submitted_at m0.prev_try_count, ?_, ?_⟩
            · show List.lookup sender (alistInsert sender _ st.senders) = _
              rw [lookup_alistInsert, if_pos rfl]
            · show List.lookup s (alistInsert seq _ sctx.pending_messages) = _
              rw [lookup_alistInsert, if_pos hsq]
          · refine ⟨SenderContext.mk sctx.sender sctx.node_next_sequence
                (alistInsert seq
                  (MessageContext.mk m0.sender m0.sequence (completedState res)
                    m0.submitted_at m0.prev_try_count)
                  sctx.pending_messages),
              mc, ?_, ?_⟩
            · show List.lookup sender (alistInsert sender _ st.senders) = _
              rw [lookup_alistInsert, if_pos rfl]
            · show List.lookup s (alistInsert seq _ sctx.pending_messages) = _
              rw [lookup_alistInsert, if_neg hsq]
              exact h2
      · refine ⟨sctx, mc, ?_, h2⟩
        rw [completed_senders_other st sender seq res o (fun h => hso h.symm)]
        exact h1
    | removeSender o2 =>
      have hne : o2 ≠ o := he o2 rfl
      refine ⟨sctx, mc, ?_, h2⟩
      show List.lookup o (alistRemove o2 st.senders) = some sctx
      rw [lookup_alistRemove, if_neg (fun h => hne h.symm)]
      exact h1
    | currentHeight hh =>
      exact ⟨sctx, mc, h1, h2⟩
  · show List.lookup o (alistRemove o st.senders) = none
    rw [lookup_alistRemove, if_pos rfl]

/-! ### Helper lemmas: the per-sender interval invariant -/

theorem seqInv_nns_up (c : SenderContext) (v : Nat)
    (hv : c.node_next_sequence ≤ v) (h : SeqInvariant c) :
    SeqInvariant (SenderContext.mk c.sender v c.pending_messages) := by
  obtain ⟨k, hk⟩ := h
  refine ⟨c.node_next_sequence + k - v, ?_⟩
  intro s hs
  have hsv : v ≤ s := hs
  have hs2 : c.node_next_sequence ≤ s := le_trans hv hsv
  have hks := hk s hs2
  show (List.lookup s c.pending_messages).isSome = true
    ↔ s < v + (c.node_next_sequence + k - v)
  rw [hks]
  omega

theorem seqInvariant_new (o v : Nat) : SeqInvariant (SenderContext.mk o v []) := by
  refine ⟨0, ?_⟩
  intro s hs
  have hsv : v ≤ s := hs
  show (List.lookup s ([] : List (Nat × MessageContext))).isSome = true ↔ s < v + 0
  simp
  omega

theorem completed_update_seqInvariant (c : SenderContext) (seq : Nat) (mc2 : MessageContext)
    (hmem : (List.lookup seq c.pending_messages).isSome = true)
    (h : SeqInvariant c) :
    SeqInvariant (SenderContext.mk c.sender c.node_next_sequence
      (alistInsert seq mc2 c.pending_messages)) := by
  obtain ⟨k, hk⟩ := h
  refine ⟨k, ?_⟩
  intro s hs
  show (List.lookup s (alistInsert seq mc2 c.pending_messages)).isSome = true
    ↔ s < c.node_next_sequence + k
  rw [lookup_alistInsert]
  by_cases hsq : s = seq
  · rw [if_pos hsq]
    subst hsq
    simp only [Option.isSome_some, true_iff]
    exact (hk s hs).mp hmem
  · rw [if_neg hsq]
    exact hk s hs

theorem doSyncOne_seqInvariant (ch : Nat) (c : SenderContext) (m : Nat)
    (h : SeqInvariant c) : SeqInvariant (doSyncOne ch c m) := by
  obtain ⟨hle, hfalse, hintv⟩ := calculate_next_sequence_props c ch
  unfold doSyncOne
  split
  · rename_i mc heq
    dsimp only
    split
    · exact h
    · split
      · exact h
      · rename_i hms hpos
        obtain ⟨k, hk⟩ := h
        refine ⟨k, ?_⟩
        intro s hs
        show (List.lookup s (alistInsert m _ c.pending_messages)).isSome = true
          ↔ s < c.node_next_sequence + k
        rw [lookup_alistInsert]
        by_cases hsm : s = m
        · rw [if_pos hsm]
          subst hsm
          simp only [Option.isSome_some, true_iff]
          exact (hk s hs).mp (by rw [heq]; rfl)
        · rw [if_neg hsm]
          exact hk s hs
  · rename_i heq
    dsimp only
    split
    · exact h
    · rename_i hms
      have hm_eq : m = c.calculate_next_sequence ch := by
        by_contra hne
        exact hms hne
      obtain ⟨k, hk⟩ := h
      have hmge : c.node_next_sequence ≤ m := by rw [hm_eq]; exact hle
      have h1 : ¬ (m < c.node_next_sequence + k) := by
        intro hlt
        have := (hk m hmge).mpr hlt
        rw [heq] at this
        simp at this
      have h3 : m ≤ c.node_next_sequence + k := by
        by_contra hgt
        push_neg at hgt
        have hmid : c.node_next_sequence + k < c.calculate_next_sequence ch := by
          rw [← hm_eq]; exact hgt
        have hmem := hintv (c.node_next_sequence + k) (by omega) hmid
        have hsome := pendingOrSuccessAt_isSome hmem
        have := (hk (c.node_next_sequence + k) (by omega)).mp hsome
        omega
      have hEq : m = c.node_next_sequence + k := by omega
      refine ⟨k + 1, ?_⟩
      intro s hs
      show (List.lookup s (alistInsert m _ c.pending_messages)).isSome = true
        ↔ s < c.node_next_sequence + (k + 1)
      rw [lookup_alistInsert]
      by_cases hsm : s = m
      · rw [if_pos hsm]
        simp only [Option.isSome_some, true_iff]
        omega
      · rw [if_neg hsm]
        have := hk s hs
        rw [this]
        omega

theorem foldl_doSyncOne_seqInvariant (ch : Nat) (msgs : List Nat) :
    ∀ c, SeqInvariant c → SeqInvariant (msgs.foldl (doSyncOne ch) c) := by
  induction msgs with
  | nil => intro c h; exact h
  | cons m t ih =>
    intro c h
    exact ih (doSyncOne ch c m) (doSyncOne_seqInvariant ch c m h)

theorem processEvent_invariant (st : SeqState) (e : MessagesEvent)
    (hst : SequencerInvariant st) (hok : goodEvent st e) :
    SequencerInvariant (processEvent st e) := by
  cases e with
  | currentHeight hh =>
    intro o c hc
    exact hst o c hc
  | removeSender o2 =>
    intro o c hc
    have hc2 : List.lookup o (alistRemove o2 st.senders) = some c := hc
    rw [lookup_alistRemove] at hc2
    by_cases ho : o = o2
    · rw [if_pos ho] at hc2; cases hc2
    · rw [if_neg ho] at hc2
      exact hst o c hc2
  | completed sender seq res =>
    cases hl : List.lookup sender st.senders with
    | none =>
      have hid : processEvent st (MessagesEvent.completed sender seq res) = st := by
        simp [processEvent, hl]
      rw [hid]
      exact hst
    | some sc =>
      cases hm : List.lookup seq sc.pending_messages with
      | none =>
        have hid : processEvent st (MessagesEvent.completed sender seq res) = st := by
          simp [processEvent, hl, hm]
        rw [hid]
        exact hst
      | some m0 =>
        have hpe : processEvent st (MessagesEvent.completed sender seq res)
            = SeqState.mk
                (alistInsert sender
                  (SenderContext.mk sc.sender sc.node_next_sequence
                    (alistInsert seq
                      (MessageContext.mk m0.sender m0.sequence (completedState res)
                        m0.submitted_at m0.prev_try_count)
                      sc.pending_messages))
                  st.senders)
                st.current_height := by
          simp [processEvent, hl, hm]
        rw [hpe]
        intro o c hc
        have hc2 : List.lookup o (alistInsert sender
            (SenderContext.mk sc.sender sc.node_next_sequence
              (alistInsert seq
                (MessageContext.mk m0.sender m0.sequence (completedState res)
                  m0.submitted_at m0.prev_try_count)
                sc.pending_messages))
            st.senders) = some c := hc
        rw [lookup_alistInsert] at hc2
        by_cases ho : o = sender
        · rw [if_pos ho] at hc2
          injection hc2 with hc3
          rw [← hc3]
          exact completed_update_seqInvariant sc seq _ (by rw [hm]; rfl)
            (hst sender sc hl)
        · rw [if_neg ho] at hc2
          exact hst o c hc2
  | doSyncMessages sender msgs nseq =>
    cases hl : List.lookup sender st.senders with
    | some sc =>
      cases nseq with
      | some v =>
        have hv : sc.node_next_sequence ≤ v := hok sc hl
        rw [doSync_occupied_eq st sender msgs (some v) sc hl]
        intro o c hc
        have hc2 : List.lookup o (alistInsert sender
            (msgs.foldl (doSyncOne st.current_height)
              (SenderContext.mk sc.sender v sc.pending_messages))
            st.senders) = some c := hc
        rw [lookup_alistInsert] at hc2
        by_cases ho : o = sender
        · rw [if_pos ho] at hc2
          injection hc2 with hc3
          rw [← hc3]
          exact foldl_doSyncOne_seqInvariant st.current_height msgs _
            (seqInv_nns_up sc v hv (hst sender sc hl))
        · rw [if_neg ho] at hc2
          exact hst o c hc2
      | none =>
        rw [doSync_occupied_eq st sender msgs none sc hl]
        intro o c hc
        have hc2 : List.lookup o (alistInsert sender
            (msgs.foldl (doSyncOne st.current_height) sc)
            st.senders) = some c := hc
        rw [lookup_alistInsert] at hc2
        by_cases ho : o = sender
        · rw [if_pos ho] at hc2
          injection hc2 with hc3
          rw [← hc3]
          exact foldl_doSyncOne_seqInvariant st.current_height msgs _ (hst sender sc hl)
        · rw [if_neg ho] at hc2
          exact hst o c hc2
    | none =>
      cases nseq with
      | some v =>
        have hpe : processEvent st (MessagesEvent.doSyncMessages sender msgs (some v))
            = SeqState.mk
                (alistInsert sender
                  (msgs.foldl (doSyncOne st.current_height) (SenderContext.mk sender v []))
                  st.senders)
                st.current_height := by
          simp [processEvent, hl]
        rw [hpe]
        intro o c hc
        have hc2 : List.lookup o (alistInsert sender
            (msgs.foldl (doSyncOne st.current_height) (SenderContext.mk sender v []))
            st.senders) = some c := hc
        rw [lookup_alistInsert] at hc2
        by_cases ho : o = sender
        · rw [if_pos ho] at hc2
          injection hc2 with hc3
          rw [← hc3]
          exact foldl_doSyncOne_seqInvariant st.current_height msgs _ (seqInvariant_new sender v)
        · rw [if_neg ho] at hc2
          exact hst o c hc2
      | none =>
        have hid : processEvent st (MessagesEvent.doSyncMessages sender msgs none) = st := by
          simp [processEvent, hl]
        rw [hid]
        exact hst

theorem reachableM_invariant : ∀ st, ReachableM st → SequencerInvariant st := by
  intro st h
  induction h with
  | init =>
    intro o c hc
    simp [initialSeqState] at hc
  | step st e hr hok ih => exact processEvent_invariant st e ih hok

theorem cex_eval : cexSeqState
    = SeqState.mk
        [(0, SenderContext.mk 0 3 [(5, MessageContext.mk 0 5 MessageState.Pending 0 0)])]
        0 := by
  have hpos : pendingOrSuccessAt [] 0 5 = false := rfl
  have h1 : nextSeqFrom [] 0 5 = 5 := by
    rw [nextSeqFrom_eq, hpos]
    simp
  have hA : processEvent initialSeqState cexEventA
      = SeqState.mk
          [(0, SenderContext.mk 0 5 [(5, MessageContext.mk 0 5 MessageState.Pending 0 0)])]
          0 := by
    simp [processEvent, cexEventA, initialSeqState, doSyncOne,
      SenderContext.calculate_next_sequence, h1, alistInsert, List.lookup]
  show processEvent (processEvent initialSeqState cexEventA) cexEventB = _
  rw [hA]
  simp [processEvent, cexEventB, alistInsert, List.lookup]

/-! ### Claim C2: sequencer interval invariant -/

/-- Counterexample to claim C2 as stated: from the empty state, a
DoSyncMessages that introduces sender 0 at node sequence 5 with message 5,
followed by a DoSyncMessages whose fresh node sequence 3 moves
node_next_sequence backwards, reaches a state whose keys at or above
node_next_sequence are exactly the singleton 5, which is not a contiguous
interval starting at 3. -/
theorem sequencer_interval_invariant_counterexample :
    Reachable cexSeqState ∧ ¬ SequencerInvariant cexSeqState := by
  constructor
  · exact Reachable.step _ cexEventB (Reachable.step _ cexEventA Reachable.init)
  · rw [cex_eval]
    intro hinv
    obtain ⟨k, hk⟩ := hinv 0
      (SenderContext.mk 0 3 [(5, MessageContext.mk 0 5 MessageState.Pending 0 0)]) rfl
    have h5 : (5 : Nat) < 3 + k := (hk 5 (show (3 : Nat) ≤ 5 by omega)).mp rfl
    have h3 : (List.lookup 3
        [(5, MessageContext.mk 0 5 MessageState.Pending 0 0)]).isSome = true :=
      (hk 3 (show (3 : Nat) ≤ 3 by omega)).mpr (show (3 : Nat) < 3 + k by omega)
    simp [List.lookup] at h3

/-- Claim C2 (amended): in every state reachable from the empty sender map by
DoSyncMessages, Completed, RemoveSender and CurrentHeight events in which a
fresh node sequence for an already known sender never moves
node_next_sequence backwards, every sender satisfies the interval property:
the pending_messages keys at or above node_next_sequence are exactly the
contiguous interval from node_next_sequence of some length k, while keys
below node_next_sequence may persist for sequences already advanced past.
As stated, with arbitrary events, the claim fails: a DoSyncMessages carrying
a smaller fresh node sequence breaks the interval (see the counterexample). -/
theorem sequencer_interval_invariant (st : SeqState) (h : ReachableM st) :
    SequencerInvariant st :=
  reachableM_invariant st h

/-- Witness for the amended claim C2 at the initial state. -/
theorem sequencer_interval_invariant_witness : SequencerInvariant initialSeqState :=
  sequencer_interval_invariant initialSeqState ReachableM.init

/-! ### Claim C1: state-root mismatch halts dispatch_block -/

/-- Claim C1: whenever the computed state root differs from the state root
claimed by the block header, dispatch_block returns the state-root-mismatch
error and the factory is returned unchanged: apply_changes is never applied
to the storage, handle_inbound_messages is never invoked, and current_block
keeps its previous value. -/
theorem dispatch_block_state_root_mismatch
    {Storage Root Txn Changes GK : Type} [DecidableEq Root]
    (ops : ReplayOps Storage Root Txn Changes GK)
    (f : ReplayFactory Storage GK)
    (block : BlockHeaderWithChanges Root Changes)
    (hne : block.block_header.state_root
      ≠ (ops.calc_root_if_changes f.storage
          block.storage_changes.main_storage_changes
          block.storage_changes.child_storage_changes).1) :
    dispatch_block ops f block = (f, some STATE_ROOT_MISMATCH) := by
  unfold dispatch_block
  rw [if_pos hne]

/-- Witness for claim C1 on a concrete mismatching block. -/
theorem dispatch_block_state_root_mismatch_witness :
    dispatch_block opsW factoryW blockW = (factoryW, some STATE_ROOT_MISMATCH) :=
  dispatch_block_state_root_mismatch opsW factoryW blockW (by decide)

/-! ### Claim C7: replay driver start and stop -/

/-- Counterexample to claim C7 as stated: with start_at 10 and a restored
checkpoint at block 5, the replay loop starts at 6, not at
max (start_at + 1) (checkpoint + 1) = 11. -/
theorem replay_start_counterexample :
    ¬ (initial_block_number 10 5 = Nat.max (10 + 1) (5 + 1)) := by
  decide

/-- Claim C7 (amended): the replay loop begins at checkpoint_block + 1 when a
checkpoint was restored (checkpoint_block nonzero) and at start_at + 1
otherwise; this equals max (start_at + 1) (checkpoint_block + 1) exactly when
the checkpoint block is zero or at least start_at, and the loop stops
(waiting forever) once block_number reaches stop_at. -/
theorem replay_start_stop_amended (start_at cb bn stop : Nat)
    (hcb : cb = 0 ∨ start_at ≤ cb) :
    initial_block_number start_at cb = Nat.max (start_at + 1) (cb + 1)
    ∧ (replay_should_stop bn (some stop) = true ↔ stop ≤ bn) := by
  constructor
  · unfold initial_block_number
    by_cases h0 : cb = 0
    · rw [if_pos h0, h0, Nat.max_eq_max, Nat.max_def]
      split <;> omega
    · have hle : start_at ≤ cb := by
        rcases hcb with h | h
        · exact absurd h h0
        · exact h
      rw [if_neg h0, Nat.max_eq_max, Nat.max_def]
      split <;> omega
  · simp [replay_should_stop]

/-- Witness for the amended claim C7 with a checkpoint past start_at. -/
theorem replay_start_stop_amended_witness :
    initial_block_number 4 9 = Nat.max (4 + 1) (9 + 1)
    ∧ (replay_should_stop 12 (some 11) = true ↔ 11 ≤ 12) :=
  replay_start_stop_amended 4 9 12 11 (Or.inr (by decide))

/-- Witness for claim C10: a height tick preserves the stored context and
removing the sender deletes it. -/
theorem remove_sender_only_removal_witness :
    (∃ sctx2 mc2,
      List.lookup 0 (processEvent stOne (MessagesEvent.currentHeight 9)).senders = some sctx2
      ∧ List.lookup 5 sctx2.pending_messages = some mc2)
    ∧ List.lookup 0 (processEvent stOne (MessagesEvent.removeSender 0)).senders = none := by
  have h := remove_sender_only_removal stOne 0 5 ⟨0, 5, [(5, mcFive)]⟩ mcFive (by rfl) (by rfl)
  exact ⟨h.1 (MessagesEvent.currentHeight 9) (fun o2 hh => by cases hh), h.2⟩
